import Mathlib

/-!
# A shallow embedding of the kratos application lifecycle manager (app.go)

This file embeds the data model and the operational behaviour of the Go
package `kratos` (file `app.go`): the `Hook`/`Lifecycle` registry, the
option defaults built by `New`, the `Append`/`AppendHook` registration
operations, the `Stop` cancellation operation, and the concurrent
orchestration performed by `App.Run` on top of `errgroup`.

Modelling conventions:

* A Go `error` is `Option Err` (`none` = `nil`).
* A Go `context.Context` is the inductive `GoCtx`, recording how a context
  was derived (`context.Background()`, `context.WithCancel`,
  `context.WithTimeout`).  Durations are nanoseconds as `Nat`
  (`time.Second = 1000000000`).
* OS signals are their Linux numbers as `Nat` (SIGINT = 2, SIGQUIT = 3,
  SIGTERM = 15, etc.).  The signal handler `sigFn func(*App, os.Signal)`
  is modelled by its only observable effect on the `App`: a function
  `Nat → Bool` returning `true` exactly when the handler calls `a.Stop()`
  for that signal; `Option` around it models the `nil` check performed by
  the signal-listener task.
* `App.Run` spawns one goroutine per present callback plus, when signals
  are configured, one signal-listener goroutine.  The concurrency is
  embedded as a small-step machine: `taskList` is the exact list of
  spawned tasks (in the spawn order of the source), and an execution is a
  fold of externally scheduled events (`Ev.step i` = goroutine `i` makes
  progress, `Ev.stopCall` = someone calls `a.Stop()`, `Ev.sig s` = the OS
  delivers signal `s`).  `errgroup` semantics are embedded faithfully:
  the first non-nil error returned by any task is recorded and cancels
  the shared context in the same atomic step (`errOnce.Do` in the
  library), later errors are dropped, and `g.Wait()` returns once every
  spawned task has finished, yielding the recorded first error.
* `Run` returns exactly when every spawned task has finished
  (`RunSt.allDone`); `runResult` is `some r` when the given schedule has
  completed the run with `g.Wait()` returning `r`, and `none` when the
  run is still in flight after the schedule (`Run` has not returned).
-/

/-- Go errors relevant to `app.go`: `context.Canceled`,
`context.DeadlineExceeded`, or any other error value (by message). -/
inductive Err where
  | canceled
  | deadlineExceeded
  | errorString (s : String)
deriving DecidableEq, Repr

/-- The result of a Go function returning `error`: `none` is `nil`. -/
abbrev Res := Option Err

/-- A Go `context.Context`, recorded by its derivation chain. -/
inductive GoCtx where
  | background
  | withCancel (parent : GoCtx)
  | withTimeout (parent : GoCtx) (timeoutNs : Nat)
deriving DecidableEq, Repr

/-- Relation `c.derivedFrom a` holds when `a` is a strict ancestor of `c`, i.e.
cancelling `a` cancels `c` by propagation. -/
def GoCtx.derivedFrom : GoCtx → GoCtx → Bool
  | .background, _ => false
  | .withCancel p, a => p = a || p.derivedFrom a
  | .withTimeout p _, a => p = a || p.derivedFrom a

/-- Whether cancelling the context `trigger` cancels the context `c`. -/
def GoCtx.cancelledByCancelOf (c trigger : GoCtx) : Bool :=
  c = trigger || c.derivedFrom trigger

/-- The effective deadline of a context: the minimum of the timeouts on
its derivation chain, `none` when no ancestor carries a timeout. -/
def GoCtx.deadlineNs : GoCtx → Option Nat
  | .background => none
  | .withCancel p => p.deadlineNs
  | .withTimeout p d =>
    match p.deadlineNs with
    | none => some d
    | some d2 => some (min d d2)

/-- Go struct `Hook` with fields `OnStart func(context.Context) error` and
`OnStop func(context.Context) error`.
Either callback may be absent (`nil`). -/
structure Hook where
  OnStart : Option (GoCtx → Res)
  OnStop : Option (GoCtx → Res)

/-- Go interface `Lifecycle` with methods `Start(context.Context) error` and
`Stop(context.Context) error`. -/
structure Lifecycle where
  Start : GoCtx → Res
  Stop : GoCtx → Res

/-- The `options` struct consumed by `New`.  `sigFn` is `none` when the
Go field is `nil`; otherwise `some f` where `f s = true` means the
handler calls `a.Stop()` on signal `s` (the only effect on the `App`
available to a handler in this model). -/
structure options where
  id : String
  name : String
  version : String
  endpoints : List String
  startTimeout : Nat
  stopTimeout : Nat
  sigs : List Nat
  sigFn : Option (Nat → Bool)

/-- A functional option, `type Option func(*options)`. -/
abbrev AppOption := options → options

/-- Go struct `App` with fields `opts options`, `hooks []Hook` and
`cancel func()`.
`cancelSet` models `cancel != nil`. -/
structure App where
  opts : options
  hooks : List Hook
  cancelSet : Bool

/-- Constant `time.Second` in nanoseconds. -/
def timeSecond : Nat := 1000000000

/-- The default `sigFn` installed by `New`: calls `a.Stop()` on SIGINT(2),
SIGQUIT(3) and SIGTERM(15); does nothing on any other signal. -/
def defaultSigFn : Nat → Bool := fun sig =>
  sig = 2 || sig = 3 || sig = 15

/-- Go `strings.Split(s, sep)` restricted to a one-character separator
(the only use in `app.go` is `sep = ","`): split around every occurrence
of the separator; the empty string yields a single empty field. -/
def splitOnChar (sep : Char) : List Char → List (List Char)
  | [] => [[]]
  | c :: cs =>
    let r := splitOnChar sep cs
    if c = sep then [] :: r
    else
      match r with
      | h :: t => (c :: h) :: t
      | [] => [[c]]

/-- Function `strings.Split` on strings, one-character separator. -/
def stringsSplitChar (s : String) (sep : Char) : List String :=
  (splitOnChar sep s.data).map fun l => ⟨l⟩

/-- Constructor `New(opts ...Option) *App`: builds the default options (identity
fields from the environment, 30s/30s timeouts, SIGTERM/SIGQUIT/SIGINT,
the default handler), applies the functional options in order, and
returns an `App` with no hooks and a `nil` cancel function.  `getenv`
models `os.Getenv` (returns `""` for unset variables). -/
def New (getenv : String → String) (opts : List AppOption) : App :=
  let o : options := {
    id := getenv "KRATOS_SERVICE_ID"
    name := getenv "KRATOS_SERVICE_NAME"
    version := getenv "KRATOS_SERVICE_VERSION"
    endpoints := stringsSplitChar (getenv "KRATOS_SERVICE_ENDPOINTS") ','
    startTimeout := 30 * timeSecond
    stopTimeout := 30 * timeSecond
    sigs := [15, 3, 2]
    sigFn := some defaultSigFn }
  let o := opts.foldl (fun acc f => f acc) o
  { opts := o, hooks := [], cancelSet := false }

/-- Method `App.Append(lc Lifecycle)`: wraps the capability's two methods in
closures and appends them as a `Hook` (both callbacks non-nil). -/
def App.Append (a : App) (lc : Lifecycle) : App :=
  { a with hooks := a.hooks ++
      [{ OnStart := some fun ctx => lc.Start ctx
         OnStop := some fun ctx => lc.Stop ctx }] }

/-- Method `App.AppendHook(hook Hook)`: appends the hook as given. -/
def App.AppendHook (a : App) (hook : Hook) : App :=
  { a with hooks := a.hooks ++ [hook] }

/-- One goroutine spawned by `Run` into the errgroup. -/
inductive RunTask where
  | stopTask (f : GoCtx → Res)
  | startTask (f : GoCtx → Res)
  | signalTask

/-- The goroutines `Run` spawns for one hook, in source order: first the
stop task (when `OnStop != nil`), then the start task (when
`OnStart != nil`).  An absent callback spawns no task. -/
def hookTasks (h : Hook) : List RunTask :=
  (match h.OnStop with
   | some f => [RunTask.stopTask f]
   | none => []) ++
  (match h.OnStart with
   | some f => [RunTask.startTask f]
   | none => [])

/-- Every goroutine `Run` spawns, in spawn order: the per-hook tasks in
registration order, then — only when `len(a.opts.sigs) != 0` — the
signal-listener task. -/
def taskList (a : App) : List RunTask :=
  (a.hooks.map hookTasks).flatten ++
    (if a.opts.sigs = [] then [] else [RunTask.signalTask])

def RunTask.isStart : RunTask → Bool
  | .startTask _ => true
  | _ => false

def RunTask.isStop : RunTask → Bool
  | .stopTask _ => true
  | _ => false

def RunTask.isSignal : RunTask → Bool
  | .signalTask => true
  | _ => false

/-- The status of one spawned goroutine: still running, or finished with
result `r`.  For a finished start/stop task, `ctxUsed` records the
context the callback was invoked with; `sawCancel` records whether the
shared context was already cancelled at the step that finished the task
(for a stop task this is the `<-ctx.Done()` it unblocked from; for the
signal-listener it is the `<-ctx.Done()` select branch). -/
inductive TSt where
  | pending
  | done (r : Res) (ctxUsed : Option GoCtx) (sawCancel : Bool)
deriving DecidableEq, Repr

def TSt.isDone : TSt → Bool
  | .pending => false
  | .done _ _ _ => true

/-- The state of one `Run` invocation: `canceled` is whether the shared
(errgroup-derived) context is cancelled, `firstErr` is `g.err` (the first
non-nil error recorded by the errgroup, `none` while none recorded),
`sts` gives the status of each task of `taskList`, `cancelSet` mirrors
`a.cancel != nil` (set on `Run` entry, never cleared), and `sigLog` lists
the signals the listener has processed, in order. -/
structure RunSt where
  canceled : Bool
  firstErr : Option Err
  sts : List TSt
  cancelSet : Bool
  sigLog : List Nat
deriving DecidableEq, Repr

/-- The state right after `Run`'s prologue: `ctx, a.cancel =
context.WithCancel(...)` has set the cancel function, the errgroup is
fresh, every task is spawned and pending. -/
def initSt (a : App) : RunSt :=
  { canceled := false
    firstErr := none
    sts := (taskList a).map fun _ => TSt.pending
    cancelSet := true
    sigLog := [] }

/-- A task returns `r` to the errgroup: its status becomes `done`, and —
`errgroup`'s `errOnce.Do` — when `r` is the first non-nil error, it is
recorded and the shared context is cancelled in the same atomic step. -/
def finishTask (s : RunSt) (i : Nat) (r : Res) (ctxUsed : Option GoCtx) : RunSt :=
  let s1 := { s with sts := s.sts.set i (TSt.done r ctxUsed s.canceled) }
  match r with
  | none => s1
  | some e =>
    if s1.firstErr = none then { s1 with firstErr := some e, canceled := true }
    else s1

/-- The fresh per-invocation context a start callback receives:
`context.WithTimeout(context.Background(), a.opts.startTimeout)`. -/
def startCbCtx (a : App) : GoCtx :=
  GoCtx.withTimeout GoCtx.background a.opts.startTimeout

/-- The fresh per-invocation context a stop callback receives:
`context.WithTimeout(context.Background(), a.opts.stopTimeout)`. -/
def stopCbCtx (a : App) : GoCtx :=
  GoCtx.withTimeout GoCtx.background a.opts.stopTimeout

/-- Goroutine `i` runs to completion of its next blocking point:
a start task invokes its callback on a fresh timeout context and returns
the result; a stop task is blocked on `<-ctx.Done()` until the shared
context is cancelled, then invokes its callback on a fresh timeout
context; the signal-listener task can only *return* via its
`<-ctx.Done()` branch, yielding `ctx.Err()` (= `context.Canceled`).
A finished task, or an index out of range, is a no-op. -/
def stepTask (a : App) (s : RunSt) (i : Nat) : RunSt :=
  match (taskList a)[i]?, s.sts[i]? with
  | some t, some TSt.pending =>
    match t with
    | .startTask f => finishTask s i (f (startCbCtx a)) (some (startCbCtx a))
    | .stopTask f =>
      if s.canceled then finishTask s i (f (stopCbCtx a)) (some (stopCbCtx a))
      else s
    | .signalTask =>
      if s.canceled then finishTask s i (some Err.canceled) none
      else s
  | _, _ => s

/-- Method `App.Stop()`, body `if a.cancel != nil then call a.cancel()`:
cancels the
shared context when the cancel function is set, otherwise does nothing. -/
def stopOnState (s : RunSt) : RunSt :=
  if s.cancelSet then { s with canceled := true } else s

/-- The index of the signal-listener task (only meaningful when
`a.opts.sigs ≠ []`, where it is the last spawned task). -/
def sigIdx (a : App) : Nat := (taskList a).length - 1

/-- Whether the signal-listener task has already returned. -/
def signalTaskDone (a : App) (s : RunSt) : Bool :=
  match s.sts[sigIdx a]? with
  | some (TSt.done _ _ _) => true
  | _ => false

/-- The OS delivers signal `sg`.  With no signals configured there is no
subscription (`Run` skipped `signal.Notify`); a signal not in
`a.opts.sigs` is filtered out by `signal.Notify`; once the listener has
returned nobody receives.  Otherwise the listener's `case sig := <-c`
branch runs: the signal is processed and, when `a.opts.sigFn != nil`,
the handler runs — in this model its only observable effect is whether
it calls `a.Stop()`. -/
def sigArrive (a : App) (s : RunSt) (sg : Nat) : RunSt :=
  if a.opts.sigs = [] then s
  else if sg ∈ a.opts.sigs then
    if signalTaskDone a s then s
    else
      let s1 := { s with sigLog := s.sigLog ++ [sg] }
      match a.opts.sigFn with
      | some f => if f sg then stopOnState s1 else s1
      | none => s1
  else s

/-- Externally scheduled events driving one `Run` invocation. -/
inductive Ev where
  | step (i : Nat)
  | stopCall
  | sig (s : Nat)
deriving DecidableEq, Repr

def stepEv (a : App) (s : RunSt) : Ev → RunSt
  | .step i => stepTask a s i
  | .stopCall => stopOnState s
  | .sig sg => sigArrive a s sg

/-- Run the machine from `Run`'s entry state under a schedule. -/
def exec (a : App) (evs : List Ev) : RunSt :=
  evs.foldl (stepEv a) (initSt a)

/-- Predicate for `g.Wait()` having returned: every spawned goroutine has
finished. -/
def RunSt.allDone (s : RunSt) : Bool :=
  s.sts.all TSt.isDone

/-- The outcome of `Run` under a schedule: `some r` when the run has
completed and `g.Wait()` returned `r`; `none` when `Run` is still
blocked in `g.Wait()`. -/
def runResult (a : App) (evs : List Ev) : Option Res :=
  let s := exec a evs
  if s.allDone then some s.firstErr else none

/-- The cancellable root context `Run` creates at entry:
`ctx, a.cancel = context.WithCancel(context.Background())` (app.go:84). -/
def sharedRunCtx : GoCtx := GoCtx.withCancel GoCtx.background

/-- The errgroup-derived shared context of a run:
`g, ctx := errgroup.WithContext(ctx)` (app.go:85). -/
def errgroupCtx : GoCtx := GoCtx.withCancel sharedRunCtx

/-! ### Concrete instances used to witness the theorems -/

/-- An environment with no variables set (`os.Getenv` yields `""`). -/
def env0 : String → String := fun _ => ""

/-- A callback that succeeds immediately. -/
def okCb : GoCtx → Res := fun _ => none

/-- A start callback that fails. -/
def failCb : GoCtx → Res := fun _ => some (Err.errorString "start failed")

/-- A hook whose two callbacks both succeed. -/
def hookOk : Hook := { OnStart := some okCb, OnStop := some okCb }

/-- A hook whose start callback fails and whose stop callback succeeds. -/
def hookFail : Hook := { OnStart := some failCb, OnStop := some okCb }

/-- A default-configured app (signals SIGTERM/SIGQUIT/SIGINT) with one
well-behaved hook. -/
def appDefault : App := (New env0 []).AppendHook hookOk

/-- An app configured with an empty signal set and no hooks. -/
def appNoSig : App := New env0 [fun o => { o with sigs := [] }]

/-- An app with an empty signal set and one well-behaved hook. -/
def appNoSigHook : App := appNoSig.AppendHook hookOk

/-- A default-configured app with no hooks (only the signal listener). -/
def appSigOnly : App := New env0 []

/-- A default-configured app with one failing-start hook and one
well-behaved hook. -/
def appFail : App := ((New env0 []).AppendHook hookFail).AppendHook hookOk

/-- The state of an `App` on which `Run` was never invoked: no cancel
function set (`a.cancel == nil`), no tasks spawned. -/
def preRunSt : RunSt :=
  { canceled := false
    firstErr := none
    sts := []
    cancelSet := false
    sigLog := [] }

/-! ## Step characterisation lemmas -/

theorem finishTask_sts (s : RunSt) (i : Nat) (r : Res) (c : Option GoCtx) :
    (finishTask s i r c).sts = s.sts.set i (TSt.done r c s.canceled) := by
  unfold finishTask
  cases r with
  | none => rfl
  | some e => dsimp only; split <;> rfl

theorem finishTask_cancelSet (s : RunSt) (i : Nat) (r : Res) (c : Option GoCtx) :
    (finishTask s i r c).cancelSet = s.cancelSet := by
  unfold finishTask
  cases r with
  | none => rfl
  | some e => dsimp only; split <;> rfl

theorem finishTask_canceled_mono (s : RunSt) (i : Nat) (r : Res) (c : Option GoCtx)
    (h : s.canceled = true) : (finishTask s i r c).canceled = true := by
  unfold finishTask
  cases r with
  | none => exact h
  | some e => dsimp only; split
              · rfl
              · exact h

theorem finishTask_firstErr_some (s : RunSt) (i : Nat) (r : Res) (c : Option GoCtx)
    (e : Err) (h : s.firstErr = some e) : (finishTask s i r c).firstErr = some e := by
  unfold finishTask
  cases r with
  | none => exact h
  | some e2 =>
    dsimp only
    split
    · next heq => rw [h] at heq; cases heq
    · exact h

theorem finishTask_firstErr_canceled (s : RunSt) (i : Nat) (r : Res) (c : Option GoCtx)
    (h : s.firstErr ≠ none → s.canceled = true) :
    (finishTask s i r c).firstErr ≠ none → (finishTask s i r c).canceled = true := by
  unfold finishTask
  cases r with
  | none => exact h
  | some e =>
    dsimp only
    split
    · intro _; rfl
    · exact h

/-- A `step i` event either leaves the state unchanged (task finished,
index out of range, or a stop/signal task still blocked on the shared
context) or finishes the pending task at `i` exactly as the source says:
a start task returns its callback's result on the fresh start context; a
stop task, only under a cancelled shared context, returns its callback's
result on the fresh stop context; the signal-listener, only under a
cancelled shared context, returns `ctx.Err()` = `context.Canceled`. -/
theorem stepTask_cases (a : App) (s : RunSt) (i : Nat) :
    stepTask a s i = s ∨
      (∃ f, (taskList a)[i]? = some (RunTask.startTask f) ∧
        s.sts[i]? = some TSt.pending ∧
        stepTask a s i = finishTask s i (f (startCbCtx a)) (some (startCbCtx a))) ∨
      (∃ f, (taskList a)[i]? = some (RunTask.stopTask f) ∧
        s.sts[i]? = some TSt.pending ∧ s.canceled = true ∧
        stepTask a s i = finishTask s i (f (stopCbCtx a)) (some (stopCbCtx a))) ∨
      ((taskList a)[i]? = some RunTask.signalTask ∧
        s.sts[i]? = some TSt.pending ∧ s.canceled = true ∧
        stepTask a s i = finishTask s i (some Err.canceled) none) := by
  unfold stepTask
  split
  · next t heq1 heq2 =>
    cases t with
    | startTask f => exact Or.inr (Or.inl ⟨f, heq1, heq2, rfl⟩)
    | stopTask f =>
      dsimp only
      split
      · next hc => exact Or.inr (Or.inr (Or.inl ⟨f, heq1, heq2, hc, rfl⟩))
      · exact Or.inl rfl
    | signalTask =>
      dsimp only
      split
      · next hc => exact Or.inr (Or.inr (Or.inr ⟨heq1, heq2, hc, rfl⟩))
      · exact Or.inl rfl
  · exact Or.inl rfl

theorem stopOnState_canceled (s : RunSt) :
    (stopOnState s).canceled = (s.canceled || s.cancelSet) := by
  unfold stopOnState
  split
  · next h => simp [h]
  · next h => simp [Bool.eq_false_iff.mpr h]

theorem stopOnState_firstErr (s : RunSt) : (stopOnState s).firstErr = s.firstErr := by
  unfold stopOnState; split <;> rfl

theorem stopOnState_sts (s : RunSt) : (stopOnState s).sts = s.sts := by
  unfold stopOnState; split <;> rfl

theorem stopOnState_cancelSet (s : RunSt) : (stopOnState s).cancelSet = s.cancelSet := by
  unfold stopOnState; split <;> rfl

theorem stopOnState_sigLog (s : RunSt) : (stopOnState s).sigLog = s.sigLog := by
  unfold stopOnState; split <;> rfl

theorem sigArrive_sts (a : App) (s : RunSt) (sg : Nat) :
    (sigArrive a s sg).sts = s.sts := by
  unfold sigArrive
  split
  · rfl
  · split
    · split
      · rfl
      · dsimp only
        split
        · split
          · rw [stopOnState_sts]
          · rfl
        · rfl
    · rfl

theorem sigArrive_firstErr (a : App) (s : RunSt) (sg : Nat) :
    (sigArrive a s sg).firstErr = s.firstErr := by
  unfold sigArrive
  split
  · rfl
  · split
    · split
      · rfl
      · dsimp only
        split
        · split
          · rw [stopOnState_firstErr]
          · rfl
        · rfl
    · rfl

theorem sigArrive_cancelSet (a : App) (s : RunSt) (sg : Nat) :
    (sigArrive a s sg).cancelSet = s.cancelSet := by
  unfold sigArrive
  split
  · rfl
  · split
    · split
      · rfl
      · dsimp only
        split
        · split
          · rw [stopOnState_cancelSet]
          · rfl
        · rfl
    · rfl

theorem sigArrive_canceled_mono (a : App) (s : RunSt) (sg : Nat)
    (h : s.canceled = true) : (sigArrive a s sg).canceled = true := by
  unfold sigArrive
  split
  · exact h
  · split
    · split
      · exact h
      · dsimp only
        split
        · split
          · rw [stopOnState_canceled]; simp [h]
          · exact h
        · exact h
    · exact h

/-! ## Event-level preservation lemmas -/

theorem stepEv_cancelSet (a : App) (s : RunSt) (ev : Ev) :
    (stepEv a s ev).cancelSet = s.cancelSet := by
  cases ev with
  | step i =>
    rcases stepTask_cases a s i with h | ⟨f, _, _, h⟩ | ⟨f, _, _, _, h⟩ | ⟨_, _, _, h⟩ <;>
      simp only [stepEv, h, finishTask_cancelSet]
  | stopCall => exact stopOnState_cancelSet s
  | sig sg => exact sigArrive_cancelSet a s sg

theorem stepEv_canceled_mono (a : App) (s : RunSt) (ev : Ev)
    (h : s.canceled = true) : (stepEv a s ev).canceled = true := by
  cases ev with
  | step i =>
    rcases stepTask_cases a s i with h2 | ⟨f, _, _, h2⟩ | ⟨f, _, _, _, h2⟩ | ⟨_, _, _, h2⟩ <;>
      simp only [stepEv, h2] <;> first
        | exact h
        | exact finishTask_canceled_mono _ _ _ _ h
  | stopCall => rw [show stepEv a s Ev.stopCall = stopOnState s from rfl,
      stopOnState_canceled, h]; rfl
  | sig sg => exact sigArrive_canceled_mono a s sg h

theorem stepEv_firstErr_some (a : App) (s : RunSt) (ev : Ev) (e : Err)
    (h : s.firstErr = some e) : (stepEv a s ev).firstErr = some e := by
  cases ev with
  | step i =>
    rcases stepTask_cases a s i with h2 | ⟨f, _, _, h2⟩ | ⟨f, _, _, _, h2⟩ | ⟨_, _, _, h2⟩ <;>
      simp only [stepEv, h2] <;> first
        | exact h
        | exact finishTask_firstErr_some _ _ _ _ _ h
  | stopCall => rw [show stepEv a s Ev.stopCall = stopOnState s from rfl,
      stopOnState_firstErr]; exact h
  | sig sg => rw [show stepEv a s (Ev.sig sg) = sigArrive a s sg from rfl,
      sigArrive_firstErr]; exact h

theorem stepEv_length (a : App) (s : RunSt) (ev : Ev) :
    (stepEv a s ev).sts.length = s.sts.length := by
  cases ev with
  | step i =>
    rcases stepTask_cases a s i with h2 | ⟨f, _, _, h2⟩ | ⟨f, _, _, _, h2⟩ | ⟨_, _, _, h2⟩ <;>
      simp only [stepEv, h2, finishTask_sts, List.length_set]
  | stopCall => rw [show stepEv a s Ev.stopCall = stopOnState s from rfl, stopOnState_sts]
  | sig sg => rw [show stepEv a s (Ev.sig sg) = sigArrive a s sg from rfl, sigArrive_sts]

/-- A finished task stays finished, with the same record. -/
theorem stepEv_done_stable (a : App) (s : RunSt) (ev : Ev) (i : Nat)
    (r : Res) (c : Option GoCtx) (sc : Bool)
    (h : s.sts[i]? = some (TSt.done r c sc)) :
    (stepEv a s ev).sts[i]? = some (TSt.done r c sc) := by
  cases ev with
  | step j =>
    rcases stepTask_cases a s j with h2 | ⟨f, _, hp, h2⟩ | ⟨f, _, hp, _, h2⟩ | ⟨_, hp, _, h2⟩ <;>
      simp only [stepEv, h2, finishTask_sts]
    · exact h
    all_goals
      have hij : j ≠ i := by
        intro hji
        rw [hji, h] at hp
        cases hp
      rw [List.getElem?_set_ne hij]
      exact h
  | stopCall => rw [show stepEv a s Ev.stopCall = stopOnState s from rfl, stopOnState_sts]; exact h
  | sig sg => rw [show stepEv a s (Ev.sig sg) = sigArrive a s sg from rfl, sigArrive_sts]; exact h

/-! ## Executions -/

theorem foldl_stepEv_inv (a : App) (P : RunSt → Prop)
    (hstep : ∀ s ev, P s → P (stepEv a s ev)) :
    ∀ (evs : List Ev) (s : RunSt), P s → P (evs.foldl (stepEv a) s) := by
  intro evs
  induction evs with
  | nil => intro s hs; exact hs
  | cons ev evs ih => intro s hs; exact ih _ (hstep s ev hs)

theorem exec_inv (a : App) (P : RunSt → Prop)
    (hinit : P (initSt a))
    (hstep : ∀ s ev, P s → P (stepEv a s ev)) (evs : List Ev) :
    P (exec a evs) :=
  foldl_stepEv_inv a P hstep evs _ hinit

theorem exec_append (a : App) (evs more : List Ev) :
    exec a (evs ++ more) = more.foldl (stepEv a) (exec a evs) :=
  List.foldl_append ..

/-! ## The master invariant of a run -/

theorem set_getElem?_pending (sts : List TSt) (j : Nat) (v : TSt)
    (hp : sts[j]? = some TSt.pending) : (sts.set j v)[j]? = some v := by
  rw [List.getElem?_set_self', hp]; rfl

/-- What the record of a finished task must look like, per task kind:
exactly the callback's result on the fresh per-invocation context (the
shared context having been observed cancelled first for the stop task),
and `ctx.Err()` = `context.Canceled` for the signal-listener. -/
def DoneOK (a : App) (t : RunTask) (r : Res) (c : Option GoCtx) (sc : Bool) : Prop :=
  match t with
  | .startTask f => r = f (startCbCtx a) ∧ c = some (startCbCtx a)
  | .stopTask f => r = f (stopCbCtx a) ∧ c = some (stopCbCtx a) ∧ sc = true
  | .signalTask => r = some Err.canceled ∧ c = none ∧ sc = true

theorem finishTask_firstErr_ne (s : RunSt) (i : Nat) (e2 : Err) (c : Option GoCtx) :
    (finishTask s i (some e2) c).firstErr ≠ none := by
  unfold finishTask
  dsimp only
  split
  · simp
  · next h => exact h

theorem finishTask_firstErr_ne_of (s : RunSt) (i : Nat) (r : Res) (c : Option GoCtx)
    (h : s.firstErr ≠ none) : (finishTask s i r c).firstErr ≠ none := by
  cases r with
  | none => exact h
  | some e2 => exact finishTask_firstErr_ne s i e2 c

/-- Invariant holding throughout every execution of `Run`'s machine. -/
def TaskInv (a : App) (s : RunSt) : Prop :=
  s.sts.length = (taskList a).length ∧
  s.cancelSet = true ∧
  (s.firstErr ≠ none → s.canceled = true) ∧
  (∀ (i : Nat) (t : RunTask) (r : Res) (c : Option GoCtx) (sc : Bool),
    (taskList a)[i]? = some t →
    s.sts[i]? = some (TSt.done r c sc) → DoneOK a t r c sc) ∧
  (∀ (i : Nat) (e2 : Err) (c : Option GoCtx) (sc : Bool),
    s.sts[i]? = some (TSt.done (some e2) c sc) → s.firstErr ≠ none)

theorem initSt_no_done (a : App) (i : Nat) (v : TSt)
    (hsi : (initSt a).sts[i]? = some v) : v = TSt.pending := by
  rw [show (initSt a).sts = (taskList a).map (fun _ => TSt.pending) from rfl,
    List.getElem?_map] at hsi
  cases hmem : (taskList a)[i]? with
  | none => rw [hmem] at hsi; cases hsi
  | some t2 => rw [hmem] at hsi; cases hsi; rfl

theorem initSt_TaskInv (a : App) : TaskInv a (initSt a) := by
  refine ⟨List.length_map .., rfl, fun h => absurd rfl h, ?_, ?_⟩
  · intro i t r c sc _ hsi
    cases initSt_no_done a i _ hsi
  · intro i e2 c sc hsi
    cases initSt_no_done a i _ hsi

theorem stepEv_TaskInv (a : App) (s : RunSt) (ev : Ev)
    (h : TaskInv a s) : TaskInv a (stepEv a s ev) := by
  obtain ⟨hlen, hcs, hfe, hdone, hne⟩ := h
  have hfinish : ∀ (j : Nat) (rr : Res) (cc : Option GoCtx) (t0 : RunTask),
      (taskList a)[j]? = some t0 →
      s.sts[j]? = some TSt.pending →
      DoneOK a t0 rr cc s.canceled →
      TaskInv a (finishTask s j rr cc) := by
    intro j rr cc t0 hj hp hok
    refine ⟨?_, ?_, ?_, ?_, ?_⟩
    · rw [finishTask_sts, List.length_set]; exact hlen
    · rw [finishTask_cancelSet]; exact hcs
    · exact finishTask_firstErr_canceled _ _ _ _ hfe
    · intro i t r c sc hti hsi
      rw [finishTask_sts] at hsi
      by_cases hij : i = j
      · subst hij
        rw [hj] at hti
        rw [set_getElem?_pending _ _ _ hp] at hsi
        cases hti
        cases hsi
        exact hok
      · rw [List.getElem?_set_ne (fun hh => hij hh.symm)] at hsi
        exact hdone i t r c sc hti hsi
    · intro i e2 c sc hsi
      rw [finishTask_sts] at hsi
      by_cases hij : i = j
      · subst hij
        rw [set_getElem?_pending _ _ _ hp] at hsi
        cases hsi
        exact finishTask_firstErr_ne s i e2 cc
      · rw [List.getElem?_set_ne (fun hh => hij hh.symm)] at hsi
        exact finishTask_firstErr_ne_of _ _ _ _ (hne i e2 c sc hsi)
  cases ev with
  | step j =>
    rcases stepTask_cases a s j with h2 | ⟨f, hj, hp, h2⟩ |
        ⟨f, hj, hp, hc, h2⟩ | ⟨hj, hp, hc, h2⟩ <;>
      rw [show stepEv a s (Ev.step j) = stepTask a s j from rfl, h2]
    · exact ⟨hlen, hcs, hfe, hdone, hne⟩
    · exact hfinish j _ _ _ hj hp ⟨rfl, rfl⟩
    · exact hfinish j _ _ _ hj hp ⟨rfl, rfl, hc⟩
    · exact hfinish j _ _ _ hj hp ⟨rfl, rfl, hc⟩
  | stopCall =>
    rw [show stepEv a s Ev.stopCall = stopOnState s from rfl]
    refine ⟨by rw [stopOnState_sts]; exact hlen,
      by rw [stopOnState_cancelSet]; exact hcs, ?_, ?_, ?_⟩
    · intro hne2
      rw [stopOnState_canceled]
      rw [stopOnState_firstErr] at hne2
      simp [hfe hne2]
    · intro i t r c sc hti hsi
      rw [stopOnState_sts] at hsi
      exact hdone i t r c sc hti hsi
    · intro i e2 c sc hsi
      rw [stopOnState_sts] at hsi
      rw [stopOnState_firstErr]
      exact hne i e2 c sc hsi
  | sig sg =>
    rw [show stepEv a s (Ev.sig sg) = sigArrive a s sg from rfl]
    refine ⟨by rw [sigArrive_sts]; exact hlen,
      by rw [sigArrive_cancelSet]; exact hcs, ?_, ?_, ?_⟩
    · intro hne2
      rw [sigArrive_firstErr] at hne2
      exact sigArrive_canceled_mono a s sg (hfe hne2)
    · intro i t r c sc hti hsi
      rw [sigArrive_sts] at hsi
      exact hdone i t r c sc hti hsi
    · intro i e2 c sc hsi
      rw [sigArrive_sts] at hsi
      rw [sigArrive_firstErr]
      exact hne i e2 c sc hsi

theorem exec_TaskInv (a : App) (evs : List Ev) : TaskInv a (exec a evs) :=
  exec_inv a (TaskInv a) (initSt_TaskInv a) (stepEv_TaskInv a) evs

/-! ## Structure of the task list -/

theorem mem_hookTasks (h : Hook) (t : RunTask) (ht : t ∈ hookTasks h) :
    (∃ f, h.OnStop = some f ∧ t = RunTask.stopTask f) ∨
    (∃ f, h.OnStart = some f ∧ t = RunTask.startTask f) := by
  unfold hookTasks at ht
  rw [List.mem_append] at ht
  rcases ht with ht | ht
  · left
    cases hs : h.OnStop with
    | none => rw [hs] at ht; cases ht
    | some f =>
      rw [hs] at ht
      rcases List.mem_singleton.mp ht with rfl
      exact ⟨f, rfl, rfl⟩
  · right
    cases hs : h.OnStart with
    | none => rw [hs] at ht; cases ht
    | some f =>
      rw [hs] at ht
      rcases List.mem_singleton.mp ht with rfl
      exact ⟨f, rfl, rfl⟩

theorem mem_taskList (a : App) (t : RunTask) (ht : t ∈ taskList a) :
    (∃ h ∈ a.hooks, t ∈ hookTasks h) ∨
    (a.opts.sigs ≠ [] ∧ t = RunTask.signalTask) := by
  unfold taskList at ht
  rw [List.mem_append] at ht
  rcases ht with ht | ht
  · left
    rcases List.mem_flatten.mp ht with ⟨l, hl, htl⟩
    rcases List.mem_map.mp hl with ⟨h, hh, rfl⟩
    exact ⟨h, hh, htl⟩
  · right
    by_cases hsig : a.opts.sigs = []
    · rw [if_pos hsig] at ht; cases ht
    · rw [if_neg hsig] at ht
      rcases List.mem_singleton.mp ht with rfl
      exact ⟨hsig, rfl⟩

theorem hookTasks_mem_of_OnStop (h : Hook) (f : GoCtx → Res)
    (hf : h.OnStop = some f) : RunTask.stopTask f ∈ hookTasks h := by
  unfold hookTasks
  rw [List.mem_append, hf]
  exact Or.inl (List.mem_singleton.mpr rfl)

theorem hookTasks_mem_of_OnStart (h : Hook) (f : GoCtx → Res)
    (hf : h.OnStart = some f) : RunTask.startTask f ∈ hookTasks h := by
  unfold hookTasks
  rw [List.mem_append, hf]
  exact Or.inr (by
    cases hs : h.OnStop <;> exact List.mem_singleton.mpr rfl)

theorem taskList_mem_of_hook (a : App) (h : Hook) (t : RunTask)
    (hh : h ∈ a.hooks) (ht : t ∈ hookTasks h) : t ∈ taskList a := by
  unfold taskList
  rw [List.mem_append]
  exact Or.inl (List.mem_flatten.mpr ⟨hookTasks h, List.mem_map.mpr ⟨h, hh, rfl⟩, ht⟩)

/-! ## Nothing changes after the run has completed -/

theorem all_isDone_getElem? (sts : List TSt) (hall : sts.all TSt.isDone = true)
    (i : Nat) (v : TSt) (hv : sts[i]? = some v) : TSt.isDone v = true := by
  rw [List.all_eq_true] at hall
  exact hall v (List.getElem?_mem hv)

theorem stepEv_frozen (a : App) (s : RunSt) (ev : Ev)
    (hd : s.allDone = true) :
    (stepEv a s ev).sts = s.sts ∧ (stepEv a s ev).firstErr = s.firstErr := by
  cases ev with
  | step j =>
    rcases stepTask_cases a s j with h2 | ⟨f, hj, hp, h2⟩ |
        ⟨f, hj, hp, hc, h2⟩ | ⟨hj, hp, hc, h2⟩
    · rw [show stepEv a s (Ev.step j) = stepTask a s j from rfl, h2]
      exact ⟨rfl, rfl⟩
    all_goals
      exact absurd (all_isDone_getElem? s.sts hd j TSt.pending hp) (by simp [TSt.isDone])
  | stopCall =>
    exact ⟨stopOnState_sts s, stopOnState_firstErr s⟩
  | sig sg =>
    exact ⟨sigArrive_sts a s sg, sigArrive_firstErr a s sg⟩

theorem runResult_frozen (a : App) (evs more : List Ev)
    (hd : (exec a evs).allDone = true) :
    runResult a (evs ++ more) = runResult a evs := by
  have key : ∀ (more2 : List Ev) (s : RunSt), s.sts = (exec a evs).sts →
      s.firstErr = (exec a evs).firstErr →
      (more2.foldl (stepEv a) s).sts = (exec a evs).sts ∧
      (more2.foldl (stepEv a) s).firstErr = (exec a evs).firstErr := by
    intro more2
    induction more2 with
    | nil => intro s h1 h2; exact ⟨h1, h2⟩
    | cons ev more2 ih =>
      intro s h1 h2
      have hds : s.allDone = true := by
        rw [show s.allDone = s.sts.all TSt.isDone from rfl, h1]
        exact hd
      obtain ⟨f1, f2⟩ := stepEv_frozen a s ev hds
      exact ih _ (f1.trans h1) (f2.trans h2)
  obtain ⟨h1, h2⟩ := key more (exec a evs) rfl rfl
  rw [runResult, runResult, exec_append]
  rw [show (more.foldl (stepEv a) (exec a evs)).allDone =
    (more.foldl (stepEv a) (exec a evs)).sts.all TSt.isDone from rfl, h1, h2]
  rfl

/-! ## Run-completion lemmas -/

theorem exec_inv_restricted (a : App) (P : RunSt → Prop) (Q : Ev → Prop)
    (hinit : P (initSt a))
    (hstep : ∀ s ev, Q ev → P s → P (stepEv a s ev)) :
    ∀ (evs : List Ev), (∀ ev ∈ evs, Q ev) → P (exec a evs) := by
  suffices key : ∀ (evs : List Ev) (s : RunSt), (∀ ev ∈ evs, Q ev) → P s →
      P (evs.foldl (stepEv a) s) by
    intro evs hevs
    exact key evs _ hevs hinit
  intro evs
  induction evs with
  | nil => intro s _ hs; exact hs
  | cons ev evs ih =>
    intro s hq hs
    exact ih _ (fun e he => hq e (List.mem_cons_of_mem _ he))
      (hstep s ev (hq ev (List.mem_cons_self ..)) hs)

/-- Once the run has completed, every spawned task's record satisfies its
kind's contract `DoneOK`. -/
theorem allDone_task_done (a : App) (evs : List Ev) (j : Nat) (t : RunTask)
    (hj : (taskList a)[j]? = some t)
    (hd : (exec a evs).allDone = true) :
    ∃ r c sc, (exec a evs).sts[j]? = some (TSt.done r c sc) ∧ DoneOK a t r c sc := by
  obtain ⟨hlen, _, _, hdone, _⟩ := exec_TaskInv a evs
  have hjlt : j < (taskList a).length := by
    rcases List.getElem?_eq_some_iff.mp hj with ⟨hh, _⟩
    exact hh
  have hjs : j < (exec a evs).sts.length := by rw [hlen]; exact hjlt
  cases hv : (exec a evs).sts[j]? with
  | none => rw [List.getElem?_eq_none_iff] at hv; omega
  | some v =>
    cases v with
    | pending =>
      have := all_isDone_getElem? _ hd j _ hv
      simp [TSt.isDone] at this
    | done r c sc =>
      exact ⟨r, c, sc, rfl, hdone j t r c sc hj hv⟩

/-- With all callbacks succeeding and no signal listener, no task ever
returns a non-nil error, so the errgroup never records one. -/
theorem cleanRun_firstErr_none (a : App)
    (hsig : a.opts.sigs = [])
    (hcb : ∀ h ∈ a.hooks,
      (∀ f, h.OnStart = some f → f (startCbCtx a) = none) ∧
      (∀ f, h.OnStop = some f → f (stopCbCtx a) = none))
    (evs : List Ev) : (exec a evs).firstErr = none := by
  refine exec_inv a (fun s => s.firstErr = none) rfl ?_ evs
  intro s ev hP
  cases ev with
  | step j =>
    rcases stepTask_cases a s j with h2 | ⟨f, hj, hp, h2⟩ |
        ⟨f, hj, hp, hc, h2⟩ | ⟨hj, hp, hc, h2⟩ <;>
      rw [show stepEv a s (Ev.step j) = stepTask a s j from rfl, h2]
    · exact hP
    · rcases mem_taskList a _ (List.getElem?_mem hj) with ⟨h, hh, hth⟩ | ⟨habs, _⟩
      · rcases mem_hookTasks h _ hth with ⟨g, hg, heq⟩ | ⟨g, hg, heq⟩
        · cases heq
        · cases heq
          rw [(hcb h hh).1 f hg]
          exact hP
      · exact absurd hsig habs
    · rcases mem_taskList a _ (List.getElem?_mem hj) with ⟨h, hh, hth⟩ | ⟨habs, _⟩
      · rcases mem_hookTasks h _ hth with ⟨g, hg, heq⟩ | ⟨g, hg, heq⟩
        · cases heq
          rw [(hcb h hh).2 f hg]
          exact hP
        · cases heq
      · exact absurd hsig habs
    · rcases mem_taskList a _ (List.getElem?_mem hj) with ⟨h, hh, hth⟩ | ⟨habs, _⟩
      · rcases mem_hookTasks h _ hth with ⟨g, hg, heq⟩ | ⟨g, hg, heq⟩ <;> cases heq
      · exact absurd hsig habs
  | stopCall =>
    rw [show stepEv a s Ev.stopCall = stopOnState s from rfl, stopOnState_firstErr]
    exact hP
  | sig sg =>
    rw [show stepEv a s (Ev.sig sg) = sigArrive a s sg from rfl, sigArrive_firstErr]
    exact hP

/-- Under a schedule made only of task steps (no external `Stop` call, no
delivered signal), when every start callback either succeeds or fails
with the same error `e`, the errgroup can only ever record `e`, and the
shared context is cancelled only after `e` is recorded.  This captures
`errgroup`'s record-then-cancel order: stop tasks and the signal
listener unblock only after cancellation, hence after `e` was recorded,
so their results are never the first error. -/
theorem oneErr_exec_inv (a : App) (e : Err)
    (hstarts : ∀ f, RunTask.startTask f ∈ taskList a →
      f (startCbCtx a) = none ∨ f (startCbCtx a) = some e)
    (evs : List Ev) (hevs : ∀ ev ∈ evs, ∃ i, ev = Ev.step i) :
    ((exec a evs).canceled = true → (exec a evs).firstErr = some e) ∧
    ((exec a evs).firstErr = none ∨ (exec a evs).firstErr = some e) := by
  refine exec_inv_restricted a
    (fun s => (s.canceled = true → s.firstErr = some e) ∧
      (s.firstErr = none ∨ s.firstErr = some e))
    (fun ev => ∃ i, ev = Ev.step i)
    ?_ ?_ evs hevs
  · exact ⟨(fun h => nomatch h), Or.inl rfl⟩
  rintro s ev ⟨j, rfl⟩ ⟨hP1, hP2⟩
  rcases stepTask_cases a s j with h2 | ⟨f, hj, hp, h2⟩ |
      ⟨f, hj, hp, hc, h2⟩ | ⟨hj, hp, hc, h2⟩ <;>
    rw [show stepEv a s (Ev.step j) = stepTask a s j from rfl, h2]
  · exact ⟨hP1, hP2⟩
  · rcases hstarts f (List.getElem?_mem hj) with hf | hf <;> rw [hf]
    · exact ⟨hP1, hP2⟩
    · unfold finishTask
      dsimp only
      split
      · exact ⟨fun _ => rfl, Or.inr rfl⟩
      · next hfe =>
        rcases hP2 with hP2 | hP2
        · exact absurd hP2 hfe
        · exact ⟨fun _ => hP2, Or.inr hP2⟩
  · have hfe : s.firstErr = some e := hP1 hc
    exact ⟨fun _ => finishTask_firstErr_some _ _ _ _ _ hfe,
      Or.inr (finishTask_firstErr_some _ _ _ _ _ hfe)⟩
  · have hfe : s.firstErr = some e := hP1 hc
    exact ⟨fun _ => finishTask_firstErr_some _ _ _ _ _ hfe,
      Or.inr (finishTask_firstErr_some _ _ _ _ _ hfe)⟩

/-! ## Claims -/

/-- C5: `New` with no options sets `startTimeout` and `stopTimeout` to 30
seconds, configures exactly the signal set {SIGINT(2), SIGQUIT(3),
SIGTERM(15)}, and installs the default handler, which requests stop
(calls `a.Stop()`) exactly for those three signals and ignores every
other signal. -/
theorem c5_default_options (getenv : String → String) :
    (New getenv []).opts.startTimeout = 30 * timeSecond ∧
    (New getenv []).opts.stopTimeout = 30 * timeSecond ∧
    (∀ sg : Nat, sg ∈ (New getenv []).opts.sigs ↔ (sg = 2 ∨ sg = 3 ∨ sg = 15)) ∧
    (New getenv []).opts.sigFn = some defaultSigFn ∧
    (∀ sg : Nat, defaultSigFn sg = true ↔ (sg = 2 ∨ sg = 3 ∨ sg = 15)) := by
  refine ⟨rfl, rfl, ?_, rfl, ?_⟩
  · intro sg
    show sg ∈ [15, 3, 2] ↔ _
    simp
    tauto
  · intro sg
    unfold defaultSigFn
    simp
    tauto

theorem c5_witness :
    (New env0 []).opts.startTimeout = 30 * timeSecond ∧
    (2 ∈ (New env0 []).opts.sigs ↔ (2 = 2 ∨ 2 = 3 ∨ 2 = 15)) :=
  ⟨(c5_default_options env0).1, (c5_default_options env0).2.2.1 2⟩

/-- C10: `App.Append` registers a hook whose `OnStart` and `OnStop` are
both non-nil wrappers of the capability's methods, so `Run` spawns both
a stop task and a start task for it; and with `KRATOS_SERVICE_ENDPOINTS`
unset (empty), the default endpoints list is `[""]`, a one-element list
holding the empty string, never the empty list. -/
theorem c10_append_and_default_endpoints (a : App) (lc : Lifecycle)
    (getenv : String → String) :
    (∃ h : Hook, (App.Append a lc).hooks = a.hooks ++ [h] ∧
      h.OnStart.isSome = true ∧ h.OnStop.isSome = true ∧
      (∃ f g, hookTasks h = [RunTask.stopTask f, RunTask.startTask g] ∧
        (∀ ctx, f ctx = lc.Stop ctx) ∧ (∀ ctx, g ctx = lc.Start ctx))) ∧
    (getenv "KRATOS_SERVICE_ENDPOINTS" = "" →
      (New getenv []).opts.endpoints = [""] ∧
      (New getenv []).opts.endpoints ≠ []) := by
  constructor
  · refine ⟨_, rfl, rfl, rfl, ?_⟩
    exact ⟨_, _, rfl, fun _ => rfl, fun _ => rfl⟩
  · intro henv
    constructor
    · show stringsSplitChar (getenv "KRATOS_SERVICE_ENDPOINTS") ',' = [""]
      rw [henv]
      rfl
    · show stringsSplitChar (getenv "KRATOS_SERVICE_ENDPOINTS") ',' ≠ []
      rw [henv]
      intro h
      cases h

theorem c10_witness :
    (New env0 []).opts.endpoints = [""] ∧ (New env0 []).opts.endpoints ≠ [] :=
  (c10_append_and_default_endpoints appNoSig { Start := okCb, Stop := okCb } env0).2 rfl

/-- C4 counterexample: after `Run` returns, the stored cancellation
function is NOT nil/cleared.  With no hooks and no signals, the empty
schedule already completes the run, yet `cancelSet` (modelling
`a.cancel != nil`) is still `true` — `Run` assigns `a.cancel` on entry
and never clears it. -/
theorem c4_counterexample :
    (exec appNoSig []).allDone = true ∧ (exec appNoSig []).cancelSet = true :=
  ⟨rfl, rfl⟩

/-- C4 (amended): after `Run` has returned, the stored cancellation
function remains set (non-nil); a subsequent `Stop()` call invokes it,
but this is a harmless no-op: it cannot change the value `Run` already
returned. -/
theorem c4_cancel_not_cleared (a : App) (evs : List Ev)
    (hdone : (exec a evs).allDone = true) :
    (exec a evs).cancelSet = true ∧
    runResult a (evs ++ [Ev.stopCall]) = runResult a evs :=
  ⟨(exec_TaskInv a evs).2.1, runResult_frozen a evs [Ev.stopCall] hdone⟩

theorem c4_witness :
    (exec appNoSig []).cancelSet = true ∧
    runResult appNoSig ([] ++ [Ev.stopCall]) = runResult appNoSig [] :=
  c4_cancel_not_cleared appNoSig [] (by decide)

/-- C6 counterexample: with an empty signal set, zero hooks and no
`Stop()` call, `Run` DOES return on its own — immediately, with nil —
because `errgroup.Wait` with no spawned goroutine returns at once.  The
claim that it "does not return on its own" is false. -/
theorem c6_counterexample :
    runResult appNoSig [] = some none ∧ runResult appNoSig [] ≠ none :=
  ⟨rfl, by intro h; cases h⟩

/-- C6 (amended): with an empty configured signal set, `Run` spawns no
signal-listener task and its outcome is determined purely by the hook
tasks; in particular, with zero hooks it returns nil immediately (rather
than hanging until an external `Stop()`). -/
theorem c6_no_signal_listener (a : App) (hsig : a.opts.sigs = []) :
    (∀ t ∈ taskList a, t.isSignal = false) ∧
    (a.hooks = [] → runResult a [] = some none) := by
  constructor
  · intro t ht
    rcases mem_taskList a t ht with ⟨h, _, hth⟩ | ⟨habs, _⟩
    · rcases mem_hookTasks h t hth with ⟨f, _, rfl⟩ | ⟨f, _, rfl⟩ <;> rfl
    · exact absurd hsig habs
  · intro hhooks
    have htl : taskList a = [] := by
      unfold taskList
      rw [hhooks, hsig]
      rfl
    unfold runResult
    show (if (initSt a).allDone then some (initSt a).firstErr else none) = some none
    have hsts : (initSt a).sts = [] := by
      show (taskList a).map (fun _ => TSt.pending) = []
      rw [htl]
      rfl
    rw [show (initSt a).allDone = (initSt a).sts.all TSt.isDone from rfl, hsts]
    rfl

theorem c6_witness : runResult appNoSig [] = some none :=
  (c6_no_signal_listener appNoSig rfl).2 rfl

/-- C1 counterexample: with the default (non-empty) signal set, one hook
whose start and stop callbacks both succeed, and `Stop()` called after
the start task has run, the run completes but `Run` returns
`context.Canceled`, not nil: the signal-listener task exits its select
via `<-ctx.Done()` and hands `ctx.Err()` to the errgroup, which reports
it as the first (and only) non-nil error. -/
theorem c1_counterexample :
    runResult appDefault [Ev.step 1, Ev.stopCall, Ev.step 0, Ev.step 2] =
      some (some Err.canceled) ∧
    runResult appDefault [Ev.step 1, Ev.stopCall, Ev.step 0, Ev.step 2] ≠
      some none :=
  ⟨rfl, by intro h; cases h⟩

/-- C1 (amended): for every set of hooks all of whose start and stop
callbacks succeed, provided the configured signal set is empty, if
`Stop()` is called after `Run` has started then `Run` returns nil once
every spawned task (including all stop callbacks) has completed; with
signals configured, the signal-listener instead surfaces the
cancellation error `context.Canceled` as `Run`'s result. -/
theorem c1_clean_run (a : App) (evs : List Ev)
    (hsig : a.opts.sigs = [])
    (hcb : ∀ h ∈ a.hooks,
      (∀ f, h.OnStart = some f → f (startCbCtx a) = none) ∧
      (∀ f, h.OnStop = some f → f (stopCbCtx a) = none))
    (hdone : (exec a evs).allDone = true) :
    runResult a evs = some none := by
  have hfe := cleanRun_firstErr_none a hsig hcb evs
  unfold runResult
  rw [show ((if (exec a evs).allDone then some (exec a evs).firstErr else none) : Option Res) =
    (if (exec a evs).allDone then some (exec a evs).firstErr else none) from rfl]
  rw [hdone, hfe]
  rfl

theorem c1_witness :
    runResult appNoSigHook [Ev.step 1, Ev.stopCall, Ev.step 0] = some none := by
  refine c1_clean_run appNoSigHook [Ev.step 1, Ev.stopCall, Ev.step 0] rfl ?_ (by decide)
  intro h hh
  rw [show appNoSigHook.hooks = [hookOk] from rfl] at hh
  rcases List.mem_singleton.mp hh with rfl
  exact ⟨fun f hf => by cases hf; rfl, fun f hf => by cases hf; rfl⟩

/-- C3: `Stop` is safe in every state and never affects the result of a
completed run: (1) a `New` app has a nil cancel function, (2) with a nil
cancel function `Stop` is a no-op, (3) `Stop` is idempotent, so repeated
or concurrent calls collapse to one, (4) `Stop` never touches the
recorded error or any task result, and (5) once `Run` has returned, any
further events — `Stop()` calls included — leave `Run`'s returned value
unchanged. -/
theorem c3_stop_idempotent_harmless :
    (∀ (getenv : String → String) (mods : List AppOption),
      (New getenv mods).cancelSet = false) ∧
    (∀ s : RunSt, s.cancelSet = false → stopOnState s = s) ∧
    (∀ s : RunSt, stopOnState (stopOnState s) = stopOnState s) ∧
    (∀ s : RunSt, (stopOnState s).firstErr = s.firstErr ∧
      (stopOnState s).sts = s.sts) ∧
    (∀ (a : App) (evs more : List Ev), (exec a evs).allDone = true →
      runResult a (evs ++ more) = runResult a evs) := by
  refine ⟨fun _ _ => rfl, ?_, ?_, ?_, ?_⟩
  · intro s hs
    unfold stopOnState
    rw [hs]
    rfl
  · intro s
    by_cases hs : s.cancelSet = true <;> simp [stopOnState, hs]
  · intro s
    exact ⟨stopOnState_firstErr s, stopOnState_sts s⟩
  · intro a evs more hdone
    exact runResult_frozen a evs more hdone

theorem c3_witness :
    stopOnState preRunSt = preRunSt ∧
    runResult appNoSig ([] ++ [Ev.stopCall, Ev.stopCall]) = runResult appNoSig [] :=
  ⟨c3_stop_idempotent_harmless.2.1 preRunSt rfl,
    c3_stop_idempotent_harmless.2.2.2.2 appNoSig [] [Ev.stopCall, Ev.stopCall] (by decide)⟩

/-- C8: a hook with a nil `OnStart` contributes no start task and a hook
with a nil `OnStop` contributes no stop task; and every start (resp.
stop) callback invocation that has happened received the fresh
per-invocation context `context.WithTimeout(context.Background(),
startTimeout)` (resp. `stopTimeout`), whose deadline is exactly the
configured timeout, the same for no other reason than its own
construction — independent of any other hook's context. -/
theorem c8_absent_callback_no_task (a : App) (evs : List Ev) :
    (∀ h : Hook, h.OnStart = none → ∀ t ∈ hookTasks h, t.isStart = false) ∧
    (∀ h : Hook, h.OnStop = none → ∀ t ∈ hookTasks h, t.isStop = false) ∧
    (∀ (j : Nat) (f : GoCtx → Res) (r : Res) (c : Option GoCtx) (sc : Bool),
      (taskList a)[j]? = some (RunTask.startTask f) →
      (exec a evs).sts[j]? = some (TSt.done r c sc) →
      r = f (startCbCtx a) ∧ c = some (startCbCtx a)) ∧
    (∀ (j : Nat) (f : GoCtx → Res) (r : Res) (c : Option GoCtx) (sc : Bool),
      (taskList a)[j]? = some (RunTask.stopTask f) →
      (exec a evs).sts[j]? = some (TSt.done r c sc) →
      r = f (stopCbCtx a) ∧ c = some (stopCbCtx a)) ∧
    (startCbCtx a).deadlineNs = some a.opts.startTimeout ∧
    (stopCbCtx a).deadlineNs = some a.opts.stopTimeout := by
  obtain ⟨_, _, _, hdone, _⟩ := exec_TaskInv a evs
  refine ⟨?_, ?_, ?_, ?_, rfl, rfl⟩
  · intro h hn t ht
    rcases mem_hookTasks h t ht with ⟨f, _, rfl⟩ | ⟨f, hf, rfl⟩
    · rfl
    · rw [hn] at hf; cases hf
  · intro h hn t ht
    rcases mem_hookTasks h t ht with ⟨f, hf, rfl⟩ | ⟨f, _, rfl⟩
    · rw [hn] at hf; cases hf
    · rfl
  · intro j f r c sc hj hs
    exact hdone j _ r c sc hj hs
  · intro j f r c sc hj hs
    have := hdone j _ r c sc hj hs
    exact ⟨this.1, this.2.1⟩

theorem c8_witness : (RunTask.stopTask okCb).isStart = false :=
  (c8_absent_callback_no_task appNoSig []).1
    { OnStart := none, OnStop := some okCb } rfl (RunTask.stopTask okCb)
    (List.mem_cons_self ..)

/-- C9: the context any start or stop callback was invoked with is
exactly one of the two fresh `context.WithTimeout(context.Background(),
·)` contexts; such a context is not derived from (and hence is never
cancelled by cancellation of) the shared run context or its
errgroup-derived child, and its only deadline is the configured
start/stop timeout. -/
theorem c9_callback_ctx_isolated (a : App) (evs : List Ev) (j : Nat)
    (t : RunTask) (ctx : GoCtx) (r : Res) (sc : Bool)
    (hj : (taskList a)[j]? = some t)
    (hs : (exec a evs).sts[j]? = some (TSt.done r (some ctx) sc)) :
    (ctx = startCbCtx a ∨ ctx = stopCbCtx a) ∧
    ctx.cancelledByCancelOf sharedRunCtx = false ∧
    ctx.cancelledByCancelOf errgroupCtx = false ∧
    (ctx.deadlineNs = some a.opts.startTimeout ∨
      ctx.deadlineNs = some a.opts.stopTimeout) := by
  obtain ⟨_, _, _, hdone, _⟩ := exec_TaskInv a evs
  have hok := hdone j t r (some ctx) sc hj hs
  have hctx : ctx = startCbCtx a ∨ ctx = stopCbCtx a := by
    cases t with
    | startTask f =>
      rcases hok with ⟨_, hc⟩
      exact Or.inl (Option.some.inj hc.symm).symm
    | stopTask f =>
      rcases hok with ⟨_, hc, _⟩
      exact Or.inr (Option.some.inj hc.symm).symm
    | signalTask =>
      rcases hok with ⟨_, hc, _⟩
      cases hc
  refine ⟨hctx, ?_, ?_, ?_⟩
  · rcases hctx with rfl | rfl <;>
      simp [GoCtx.cancelledByCancelOf, GoCtx.derivedFrom, sharedRunCtx,
        startCbCtx, stopCbCtx]
  · rcases hctx with rfl | rfl <;>
      simp [GoCtx.cancelledByCancelOf, GoCtx.derivedFrom, sharedRunCtx,
        errgroupCtx, startCbCtx, stopCbCtx]
  · rcases hctx with rfl | rfl
    · exact Or.inl rfl
    · exact Or.inr rfl

theorem c9_witness :
    (stopCbCtx appNoSigHook = startCbCtx appNoSigHook ∨
      stopCbCtx appNoSigHook = stopCbCtx appNoSigHook) ∧
    (stopCbCtx appNoSigHook).cancelledByCancelOf sharedRunCtx = false ∧
    (stopCbCtx appNoSigHook).cancelledByCancelOf errgroupCtx = false ∧
    ((stopCbCtx appNoSigHook).deadlineNs = some appNoSigHook.opts.startTimeout ∨
      (stopCbCtx appNoSigHook).deadlineNs = some appNoSigHook.opts.stopTimeout) :=
  c9_callback_ctx_isolated appNoSigHook [Ev.step 1, Ev.stopCall, Ev.step 0] 0
    (RunTask.stopTask okCb) (stopCbCtx appNoSigHook) none true rfl (by decide)

/-- C7: when signals are configured, each delivered subscribed signal is
processed by the listener loop — appended to the processing log and
passed to `onSignal` (`sigFn`), whose only `App`-visible effect is
whether it requests stop, cancelling the shared context — and the
listener task can only exit by observing shared-context cancellation,
reporting the cancellation cause `ctx.Err()` = `context.Canceled` as its
own result. -/
theorem c7_signal_listener_loop (a : App) (evs : List Ev) (j : Nat) (sg : Nat)
    (f : Nat → Bool) (hfn : a.opts.sigFn = some f)
    (hj : (taskList a)[j]? = some RunTask.signalTask) :
    (∀ r c sc, (exec a evs).sts[j]? = some (TSt.done r c sc) →
      r = some Err.canceled ∧ sc = true) ∧
    (signalTaskDone a (exec a evs) = false → sg ∈ a.opts.sigs →
      (exec a (evs ++ [Ev.sig sg])).sigLog = (exec a evs).sigLog ++ [sg] ∧
      (exec a (evs ++ [Ev.sig sg])).canceled = ((exec a evs).canceled || f sg)) := by
  constructor
  · intro r c sc hs
    obtain ⟨_, _, _, hdone, _⟩ := exec_TaskInv a evs
    have hok := hdone j _ r c sc hj hs
    exact ⟨hok.1, hok.2.2⟩
  · intro hnd hmem
    have hcs : (exec a evs).cancelSet = true := (exec_TaskInv a evs).2.1
    have hstep : exec a (evs ++ [Ev.sig sg]) = sigArrive a (exec a evs) sg := by
      rw [exec_append]
      rfl
    rw [hstep]
    unfold sigArrive
    rw [if_neg (fun hempty => by rw [hempty] at hmem; exact (List.not_mem_nil sg) hmem)]
    rw [if_pos hmem]
    rw [if_neg (by rw [hnd]; exact Bool.false_ne_true)]
    dsimp only
    rw [hfn]
    dsimp only
    cases hfsg : f sg with
    | false =>
      constructor
      · rw [if_neg Bool.false_ne_true]
      · rw [if_neg Bool.false_ne_true]
        simp
    | true =>
      constructor
      · rw [if_pos rfl, stopOnState_sigLog]
      · rw [if_pos rfl, stopOnState_canceled]
        simp [hcs]

theorem c7_witness :
    (exec appSigOnly ([] ++ [Ev.sig 15])).sigLog = (exec appSigOnly []).sigLog ++ [15] ∧
    (exec appSigOnly ([] ++ [Ev.sig 15])).canceled =
      ((exec appSigOnly []).canceled || defaultSigFn 15) :=
  (c7_signal_listener_loop appSigOnly [] 0 15 defaultSigFn rfl rfl).2
    (by decide) (by decide)

/-- C2: if one hook's start callback fails with error `e` (and no other
start callback fails with a different error), then, under any schedule
free of external `Stop()` calls and signals that completes the run,
every hook's stop callback is invoked — each on its fresh stop context,
having first observed the shared context cancelled — before `Run`
returns, the shared context ends up cancelled, and `Run` returns that
same error `e`. -/
theorem c2_start_failure_triggers_shutdown (a : App) (evs : List Ev) (e : Err)
    (h0 : Hook) (f0 : GoCtx → Res)
    (hmem : h0 ∈ a.hooks) (hf0 : h0.OnStart = some f0)
    (hfail : f0 (startCbCtx a) = some e)
    (hothers : ∀ h ∈ a.hooks, ∀ g, h.OnStart = some g →
      g (startCbCtx a) = none ∨ g (startCbCtx a) = some e)
    (hsched : ∀ ev ∈ evs, ∃ i, ev = Ev.step i)
    (hdone : (exec a evs).allDone = true) :
    runResult a evs = some (some e) ∧
    (exec a evs).canceled = true ∧
    (∀ (j : Nat) (f : GoCtx → Res), (taskList a)[j]? = some (RunTask.stopTask f) →
      (exec a evs).sts[j]? =
        some (TSt.done (f (stopCbCtx a)) (some (stopCbCtx a)) true)) := by
  have hstarts : ∀ f, RunTask.startTask f ∈ taskList a →
      f (startCbCtx a) = none ∨ f (startCbCtx a) = some e := by
    intro f hmem2
    rcases mem_taskList a _ hmem2 with ⟨h, hh, hth⟩ | ⟨_, habs⟩
    · rcases mem_hookTasks h _ hth with ⟨g, hg, heq⟩ | ⟨g, hg, heq⟩
      · cases heq
      · cases heq
        exact hothers h hh f hg
    · cases habs
  have hinv := oneErr_exec_inv a e hstarts evs hsched
  have hmemT : RunTask.startTask f0 ∈ taskList a :=
    taskList_mem_of_hook a h0 _ hmem (hookTasks_mem_of_OnStart h0 f0 hf0)
  rcases List.mem_iff_getElem?.mp hmemT with ⟨j0, hj0⟩
  obtain ⟨r, c, sc, hst, hok⟩ := allDone_task_done a evs j0 _ hj0 hdone
  have hr : r = some e := hok.1.trans hfail
  obtain ⟨_, _, hfe_can, _, hne⟩ := exec_TaskInv a evs
  have hfne : (exec a evs).firstErr ≠ none :=
    hne j0 e c sc (by rw [← hr]; exact hst)
  have hfeq : (exec a evs).firstErr = some e := by
    rcases hinv.2 with h2 | h2
    · exact absurd h2 hfne
    · exact h2
  refine ⟨?_, hfe_can hfne, ?_⟩
  · unfold runResult
    rw [show ((if (exec a evs).allDone then some (exec a evs).firstErr else none) :
        Option Res) =
      (if (exec a evs).allDone then some (exec a evs).firstErr else none) from rfl]
    rw [hdone, hfeq]
    rfl
  · intro j f hjf
    obtain ⟨r2, c2, sc2, hst2, hok2⟩ := allDone_task_done a evs j _ hjf hdone
    obtain ⟨hr2, hc2, hsc2⟩ := hok2
    rw [hr2, hc2, hsc2] at hst2
    exact hst2

theorem c2_witness :
    runResult appFail [Ev.step 1, Ev.step 3, Ev.step 0, Ev.step 2, Ev.step 4] =
      some (some (Err.errorString "start failed")) ∧
    (exec appFail [Ev.step 1, Ev.step 3, Ev.step 0, Ev.step 2, Ev.step 4]).canceled =
      true := by
  have hhooks : appFail.hooks = [hookFail, hookOk] := rfl
  have hothers : ∀ h ∈ appFail.hooks, ∀ g, h.OnStart = some g →
      g (startCbCtx appFail) = none ∨
      g (startCbCtx appFail) = some (Err.errorString "start failed") := by
    intro h hh g hg
    rw [hhooks] at hh
    rcases List.mem_cons.mp hh with rfl | hh2
    · cases hg
      exact Or.inr rfl
    · rcases List.mem_cons.mp hh2 with rfl | hh3
      · cases hg
        exact Or.inl rfl
      · cases hh3
  have happ := c2_start_failure_triggers_shutdown appFail
    [Ev.step 1, Ev.step 3, Ev.step 0, Ev.step 2, Ev.step 4]
    (Err.errorString "start failed") hookFail failCb
    (by rw [hhooks]; exact List.mem_cons_self ..) rfl rfl hothers
    (by intro ev hev; fin_cases hev <;> exact ⟨_, rfl⟩)
    (by decide)
  exact ⟨happ.1, happ.2.1⟩
